import Mathlib

/-!
Verification of the Zinc toolchain specification against its source.

Each section shallowly embeds the Rust definitions the claims depend on:
pure functions become Lean functions, stateful code becomes explicit state
passing, machine integers become Nat or Int, and fallible code returns
Option or Except.  Definitions whose Rust source is not part of the
repository snapshot are marked `Modelled from the spec:` in their doc
comment and follow the specification text instead.
-/

namespace Zinc

/-!
Section: Euclidean division, from zinc-utils/src/euclidean/mod.rs.

Rust `BigInt` division (`std::ops::Div`) truncates toward zero, which is
`Int.tdiv` in Lean.  `div_rem` first computes the truncated quotient and
then adjusts it by one toward minus (for a positive denominator) or plus
(for a negative denominator) infinity whenever the product overshoots the
nominator, which makes the remainder nonnegative.
-/

/-- Shallow embedding of `zinc_utils::euclidean::div_rem`. -/
def div_rem (nominator denominator : Int) : Option (Int × Int) :=
  if denominator = 0 then none
  else
    let dv := Int.tdiv nominator denominator
    let dv :=
      if dv * denominator > nominator then
        if denominator > 0 then dv - 1 else dv + 1
      else dv
    some (dv, nominator - dv * denominator)

/-- Modelled from the spec: the VM integer-division path reports division by
zero as a failing require (`div_rem_conditional` lives outside the snapshot;
spec section 4.8 fixes its zero-denominator behavior).  The wrapper surfaces
`div_rem`'s `none` as a runtime error. -/
inductive DivError where
  | divisionByZero
  deriving DecidableEq, Repr

/-- Modelled from the spec: fallible wrapper reporting the zero denominator. -/
def div_rem_checked (nominator denominator : Int) : Except DivError (Int × Int) :=
  match div_rem nominator denominator with
  | some qm => .ok qm
  | none => .error .divisionByZero

/-- The truncated remainder realized by `div_rem` before adjustment. -/
theorem div_rem_tdiv_decomp (a b : Int) :
    b * Int.tdiv a b + Int.tmod a b = a :=
  Int.tdiv_add_tmod a b

theorem tmod_neg_arg (a b : Int) : Int.tmod (-a) b = -Int.tmod a b := by
  have h1 := Int.tmod_def (-a) b
  have h2 := Int.tmod_def a b
  rw [Int.neg_tdiv] at h1
  rw [h1, h2]
  ring

theorem tmod_bounds (a b : Int) (hb : b ≠ 0) :
    -|b| < Int.tmod a b ∧ Int.tmod a b < |b| := by
  have key : ∀ x : Int, Int.tmod x b < |b| := by
    intro x
    rcases lt_or_gt_of_ne hb with h | h
    · have := Int.tmod_lt_of_pos x (b := -b) (by omega)
      rw [Int.tmod_neg] at this
      rw [abs_of_neg h]
      exact this
    · have := Int.tmod_lt_of_pos x h
      rw [abs_of_pos h]
      exact this
  constructor
  · have := key (-a)
    rw [tmod_neg_arg] at this
    omega
  · exact key a

theorem tmod_sign_nonneg (a b : Int) (ha : 0 ≤ a) : 0 ≤ Int.tmod a b :=
  Int.tmod_nonneg b ha

theorem tmod_sign_nonpos (a b : Int) (ha : a ≤ 0) : Int.tmod a b ≤ 0 := by
  have := Int.tmod_nonneg b (a := -a) (by omega)
  rw [tmod_neg_arg] at this
  omega

/-- C2: for every pair of big integers with a nonzero denominator, `div_rem`
returns a quotient and remainder satisfying the Euclidean contract
`a = q * b + m` with `0 ≤ m < |b|`; the four sign combinations of `9 / 4`
produce `(2,1), (-2,1), (-3,3), (3,3)`; a zero denominator produces no
result and is reported as an error by the checked wrapper. -/
theorem div_rem_euclidean (a b : Int) (hb : b ≠ 0) :
    (∃ q m, div_rem a b = some (q, m) ∧ a = q * b + m ∧ 0 ≤ m ∧ m < |b|) ∧
    div_rem 9 4 = some (2, 1) ∧
    div_rem 9 (-4) = some (-2, 1) ∧
    div_rem (-9) 4 = some (-3, 3) ∧
    div_rem (-9) (-4) = some (3, 3) ∧
    div_rem a 0 = none ∧
    div_rem_checked a 0 = .error .divisionByZero := by
  refine ⟨?_, by decide, by decide, by decide, by decide, by
      simp [div_rem], by simp [div_rem_checked, div_rem]⟩
  have hdecomp := div_rem_tdiv_decomp a b
  have hbounds := tmod_bounds a b hb
  set t := Int.tdiv a b with ht
  set r := Int.tmod a b with hr
  have hover : (t * b > a) ↔ r < 0 := by
    constructor <;> intro h <;> nlinarith [hdecomp]
  simp only [div_rem, hb, if_false, if_neg hb]
  by_cases hcase : t * b > a
  · have hrneg : r < 0 := hover.mp hcase
    rcases lt_or_gt_of_ne hb with hbneg | hbpos
    · refine ⟨t + 1, a - (t + 1) * b, ?_, by ring, ?_, ?_⟩
      · simp only [if_pos hcase, if_neg (by omega : ¬ b > 0)]
      · have : a - (t + 1) * b = r - b := by nlinarith [hdecomp]
        rw [this, abs_of_neg hbneg] at *
        omega
      · have : a - (t + 1) * b = r - b := by nlinarith [hdecomp]
        rw [this, abs_of_neg hbneg] at *
        omega
    · refine ⟨t - 1, a - (t - 1) * b, ?_, by ring, ?_, ?_⟩
      · simp only [if_pos hcase, if_pos hbpos]
      · have : a - (t - 1) * b = r + b := by nlinarith [hdecomp]
        rw [this, abs_of_pos hbpos] at *
        omega
      · have : a - (t - 1) * b = r + b := by nlinarith [hdecomp]
        rw [this, abs_of_pos hbpos] at *
        omega
  · have hrpos : 0 ≤ r := by
      by_contra hneg
      exact hcase (hover.mpr (by omega))
    refine ⟨t, a - t * b, ?_, by ring, ?_, ?_⟩
    · simp only [if_neg hcase]
    · have : a - t * b = r := by nlinarith [hdecomp]
      omega
    · have : a - t * b = r := by nlinarith [hdecomp]
      rcases hbounds with ⟨_, hub⟩
      omega

/-- C2 witness: the Euclidean contract instantiated at `a = 9`, `b = 4`. -/
theorem div_rem_euclidean_witness :
    ∃ q m, div_rem 9 4 = some (q, m) ∧ (9 : Int) = q * 4 + m ∧ 0 ≤ m ∧ m < |(4 : Int)| :=
  (div_rem_euclidean 9 4 (by decide)).1

/-!
Section: the standard-library array truncate gadget, from
zinc-vm/src/gadgets/stdlib/arrays/truncate.rs.

`Truncate::synthesize` reads the requested length from a compile-time
constant scalar (`get_constant_usize`), rejects lengths above the input
length with `MalformedBytecode::InvalidArguments`, and otherwise truncates
the array in place (Rust `Vec::truncate`, i.e. keep the first `len`
elements).  The array elements pass through untouched, so they are kept
generic here; the length scalar is modelled by the optional constant it
carries (`none` when the scalar is not a compile-time constant, in which
case `get_constant_usize` fails).
-/

/-- Errors surfaced by the truncate gadget. -/
inductive GadgetError where
  | invalidArguments
  | expectedConstant
  deriving DecidableEq, Repr

/-- Shallow embedding of `Truncate::synthesize`. -/
def truncate_synthesize (new_len : Option Nat) (array : List α) :
    Except GadgetError (List α) :=
  match new_len with
  | none => .error .expectedConstant
  | some len =>
    if len > array.length then .error .invalidArguments
    else .ok (array.take len)

/-- C10: the truncate gadget fails with `InvalidArguments` when the requested
constant length exceeds the input length (producing no output), fails when
the length is not a compile-time constant, and otherwise returns exactly the
first `len` elements of the input, each unchanged. -/
theorem truncate_synthesize_spec (len : Nat) (array : List α) :
    truncate_synthesize none array = .error .expectedConstant ∧
    (len > array.length →
      truncate_synthesize (some len) array = Except.error .invalidArguments) ∧
    (len ≤ array.length →
      ∃ out, truncate_synthesize (some len) array = .ok out ∧
        out.length = len ∧ ∀ k, k < len → out[k]? = array[k]?) := by
  refine ⟨rfl, fun h => by simp [truncate_synthesize, h], fun h => ?_⟩
  refine ⟨array.take len, by simp [truncate_synthesize, Nat.not_lt.mpr h], ?_, ?_⟩
  · simp [List.length_take, Nat.min_eq_left h]
  · intro k hk
    simp [List.getElem?_take, hk]

/-- C10 witness: truncating a three-element array to two elements keeps the
first two unchanged, and truncating it to four elements is rejected. -/
theorem truncate_synthesize_spec_witness :
    ((2 : Nat) ≤ ([5, 6, 7] : List Nat).length ∧
      ∃ out, truncate_synthesize (some 2) ([5, 6, 7] : List Nat) = .ok out ∧
        out.length = 2 ∧ ∀ k, k < 2 → out[k]? = ([5, 6, 7] : List Nat)[k]?) ∧
    ((4 : Nat) > ([5, 6, 7] : List Nat).length ∧
      truncate_synthesize (some 4) ([5, 6, 7] : List Nat) =
        Except.error .invalidArguments) :=
  ⟨⟨by decide, (truncate_synthesize_spec 2 ([5, 6, 7] : List Nat)).2.2 (by decide)⟩,
    ⟨by decide, (truncate_synthesize_spec 4 ([5, 6, 7] : List Nat)).2.1 (by decide)⟩⟩

/-!
Section: the Require instruction, from zinc-vm/src/instructions/require.rs.

`Require::execute` pops the condition value, reads the current path
predicate from the conditions stack, computes `value OR NOT predicate` with
the logical gadgets, and hands the result to the require gadget together
with the optional instruction message.  The embedding works at the witness
level of the boolean scalars.
-/

/-- Runtime errors relevant to the require path. -/
inductive RequireFailure where
  | requireError (message : Option String)

/-- Modelled from the spec: the witness level of `gadgets::logical::not`
(the gadget file is outside the snapshot; spec section 4.8 fixes boolean
gadget semantics). -/
def gadget_not (c : Bool) : Bool := !c

/-- Modelled from the spec: the witness level of `gadgets::logical::or`. -/
def gadget_or (a b : Bool) : Bool := a || b

/-- Modelled from the spec: `require(x, msg)` enforces `x = 1`; failure is a
runtime error carrying `msg` (spec section 4.8; the gadget file is outside
the snapshot). -/
def gadget_require (condition : Bool) (message : Option String) :
    Except RequireFailure Unit :=
  if condition then .ok () else .error (.requireError message)

/-- Shallow embedding of `Require::execute`: the popped condition `value` and
the current path predicate `condition` on the conditions stack. -/
def require_execute (value condition : Bool) (message : Option String) :
    Except RequireFailure Unit :=
  let not_c := gadget_not condition
  let masked := gadget_or value not_c
  gadget_require masked message

/-- C5: executing Require aborts with a `RequireError` carrying the
instruction message exactly when the path predicate is true and the popped
value is false; under a false path predicate it never aborts, and a
top-level require of a true value succeeds. -/
theorem require_execute_spec (value condition : Bool) (message : Option String) :
    (require_execute value condition message =
        .error (.requireError message) ↔ condition = true ∧ value = false) ∧
    (condition = false → require_execute value condition message = .ok ()) ∧
    require_execute true condition message = .ok () := by
  cases value <;> cases condition <;>
    simp [require_execute, gadget_require, gadget_or, gadget_not]

/-- C5 witness: a require of a false value under a false path predicate, as
produced by wrapping it in a never-taken branch, does not abort. -/
theorem require_execute_spec_witness :
    (false = false) ∧ require_execute false false none = .ok () :=
  ⟨rfl, (require_execute_spec false false none).2.1 rfl⟩

/-!
Section: the bytecode codec, from
zinc-bytecode/src/instructions/memory/load_global.rs and
zinc-bytecode/src/instructions/flow/endif.rs.

Bytes are modelled as naturals below 256 and usize as a natural below
2 to the 64.  The helpers `encode_with_args`, `decode_with_usize_args` and
`decode_simple_instruction` live in the codec utils outside the snapshot and
are modelled from the spec (section 4.6): a one-byte opcode tag followed by
each usize argument as eight little-endian bytes.  The opcode tag constants
(`InstructionCode as u8`) are also defined outside the snapshot, so the
embedded encoders and decoders take the tag as an explicit argument and the
round-trip is proved for every tag value.
-/

/-- Decoding failures (spec section 4.6: decoding is fallible). -/
inductive DecodingError where
  | unexpectedEnd
  | unknownInstruction
  deriving DecidableEq, Repr

/-- Modelled from the spec: a usize argument encodes as 8 little-endian
bytes. -/
def usize_to_le_bytes (x : Nat) : List Nat :=
  (List.range 8).map fun i => x / 256 ^ i % 256

/-- Modelled from the spec: read a usize argument from 8 little-endian
bytes. -/
def le_bytes_to_usize (bytes : List Nat) : Nat :=
  (bytes.take 8).foldr (fun b acc => b + 256 * acc) 0

/-- Modelled from the spec: `utils::encode_with_args` emits the opcode tag
byte followed by each usize argument in little-endian. -/
def encode_with_args (code : Nat) (args : List Nat) : List Nat :=
  code :: (args.map usize_to_le_bytes).flatten

/-- Modelled from the spec: `utils::decode_with_usize_args` checks the
opcode tag and reads `n` usize arguments, reporting the consumed length. -/
def decode_with_usize_args (code : Nat) (bytes : List Nat) (n : Nat) :
    Except DecodingError (List Nat × Nat) :=
  match bytes with
  | [] => .error .unexpectedEnd
  | b :: rest =>
    if b = code then
      if rest.length < 8 * n then .error .unexpectedEnd
      else
        .ok ((List.range n).map fun i => le_bytes_to_usize ((rest.drop (8 * i)).take 8),
          1 + 8 * n)
    else .error .unknownInstruction

/-- Modelled from the spec: `utils::decode_simple_instruction` checks the
opcode tag of an argument-free instruction and consumes one byte. -/
def decode_simple_instruction (code : Nat) (bytes : List Nat) :
    Except DecodingError (Unit × Nat) :=
  match bytes with
  | [] => .error .unexpectedEnd
  | b :: _ => if b = code then .ok ((), 1) else .error .unknownInstruction

/-- The `LoadGlobal` instruction: one usize address operand. -/
structure LoadGlobal where
  address : Nat
  deriving DecidableEq, Repr

/-- Shallow embedding of `LoadGlobal::encode`; `code` stands for
`InstructionCode::LoadGlobal as u8`. -/
def LoadGlobal.encode (code : Nat) (inst : LoadGlobal) : List Nat :=
  encode_with_args code [inst.address]

/-- Shallow embedding of `LoadGlobal::decode`. -/
def LoadGlobal.decode (code : Nat) (bytes : List Nat) :
    Except DecodingError (LoadGlobal × Nat) :=
  match decode_with_usize_args code bytes 1 with
  | .ok (args, len) =>
    match args with
    | a :: _ => .ok (⟨a⟩, len)
    | [] => .error .unexpectedEnd
  | .error e => .error e

/-- The `EndIf` instruction: no operands. -/
inductive EndIf where
  | mk
  deriving DecidableEq, Repr

/-- Shallow embedding of `EndIf::encode`; `code` stands for
`InstructionCode::EndIf as u8`. -/
def EndIf.encode (code : Nat) : List Nat :=
  [code]

/-- Shallow embedding of `EndIf::decode` via `decode_simple_instruction`. -/
def EndIf.decode (code : Nat) (bytes : List Nat) :
    Except DecodingError (EndIf × Nat) :=
  match decode_simple_instruction code bytes with
  | .ok (_, len) => .ok (.mk, len)
  | .error e => .error e

theorem le_bytes_roundtrip (x : Nat) (h : x < 2 ^ 64) :
    le_bytes_to_usize (usize_to_le_bytes x) = x := by
  have hrange : List.range 8 = [0, 1, 2, 3, 4, 5, 6, 7] := rfl
  simp only [usize_to_le_bytes, le_bytes_to_usize, hrange, List.map_cons,
    List.map_nil, List.take, List.foldr]
  norm_num
  omega

theorem usize_to_le_bytes_length (x : Nat) : (usize_to_le_bytes x).length = 8 := by
  simp [usize_to_le_bytes]

theorem load_global_encode_eq (code addr : Nat) :
    LoadGlobal.encode code ⟨addr⟩ = code :: usize_to_le_bytes addr := by
  simp [LoadGlobal.encode, encode_with_args]

theorem load_global_decode_encode (code addr : Nat) (rest : List Nat)
    (h : addr < 2 ^ 64) :
    LoadGlobal.decode code (code :: (usize_to_le_bytes addr ++ rest)) =
      .ok (⟨addr⟩, 9) := by
  have hlen : (usize_to_le_bytes addr).length = 8 := usize_to_le_bytes_length addr
  have hcond : ¬ ((usize_to_le_bytes addr).length + rest.length < 8) := by
    rw [hlen]; omega
  have htake : (usize_to_le_bytes addr ++ rest).take 8 = usize_to_le_bytes addr := by
    rw [← hlen, List.take_left]
  have hrange1 : List.range 1 = [0] := rfl
  simp [LoadGlobal.decode, decode_with_usize_args, hcond, hrange1, htake,
    le_bytes_roundtrip addr h]

/-- C3: decoding the bytes produced by encoding yields the same instruction
back, for the `LoadGlobal` and `EndIf` instructions of the snapshot, for
every opcode tag value, every in-range address, and every trailing byte
stream; the decoder consumes exactly the bytes the encoder produced (nine
for `LoadGlobal`, one for `EndIf`). -/
theorem encode_decode_roundtrip (code addr : Nat) (rest : List Nat)
    (haddr : addr < 2 ^ 64) :
    LoadGlobal.decode code (LoadGlobal.encode code ⟨addr⟩ ++ rest) =
      .ok (⟨addr⟩, (LoadGlobal.encode code ⟨addr⟩).length) ∧
    EndIf.decode code (EndIf.encode code ++ rest) =
      .ok (.mk, (EndIf.encode code).length) ∧
    (LoadGlobal.encode code ⟨addr⟩).length = 9 ∧
    (EndIf.encode code).length = 1 := by
  have hlen : (usize_to_le_bytes addr).length = 8 := usize_to_le_bytes_length addr
  have henc : (LoadGlobal.encode code ⟨addr⟩).length = 9 := by
    rw [load_global_encode_eq]
    simp [hlen]
  refine ⟨?_, ?_, henc, rfl⟩
  · rw [load_global_encode_eq]
    have h9 : (code :: usize_to_le_bytes addr).length = 9 := by simp [hlen]
    rw [h9, List.cons_append]
    exact load_global_decode_encode code addr rest haddr
  · simp [EndIf.decode, EndIf.encode, decode_simple_instruction]

/-- C3 witness: the round trip at tag 17, address 300, with two trailing
bytes. -/
theorem encode_decode_roundtrip_witness :
    (300 : Nat) < 2 ^ 64 ∧
    LoadGlobal.decode 17 (LoadGlobal.encode 17 ⟨300⟩ ++ [7, 9]) =
      .ok (⟨300⟩, (LoadGlobal.encode 17 ⟨300⟩).length) :=
  ⟨by norm_num, (encode_decode_roundtrip 17 300 [7, 9] (by norm_num)).1⟩

/-!
Section: semantic type equality, from
zinc-compiler/src/semantic/element/type/mod.rs (`impl PartialEq for Type`),
type/structure/mod.rs and type/enumeration/mod.rs.

Identifiers and scope references are opaque to equality, so they are
modelled as naturals (a scope reference is an arena key).  The payload
fields mirror the Rust structs: `Structure` carries location, identifier,
type_id, fields, generics, params and scope; `Enumeration` carries
location, identifier, unique_id, bitlength, values and scope.  The Rust
`Contract` struct lives outside the snapshot; its `PartialEq` is modelled
from the spec (composite types compare equal iff their type ids match),
while the dispatch in `impl PartialEq for Type` is taken from the source.
The source `Type` equality has no arm for two `Function` types, so they
fall into the catch-all and compare unequal.
-/

/-- A source location (file position); carried by types but ignored by
equality. -/
structure Location where
  line : Nat
  column : Nat
  deriving DecidableEq, Repr

/-- Shallow embedding of the semantic `Type` enum. -/
inductive Ty where
  | unit (location : Option Location)
  | boolean (location : Option Location)
  | integerUnsigned (location : Option Location) (bitlength : Nat)
  | integerSigned (location : Option Location) (bitlength : Nat)
  | field (location : Option Location)
  | string (location : Option Location)
  | range (location : Option Location) (ty : Ty)
  | rangeInclusive (location : Option Location) (ty : Ty)
  | array (location : Option Location) (ty : Ty) (size : Nat)
  | tuple (location : Option Location) (types : List Ty)
  | structureTy (location : Option Location) (identifier : Nat) (type_id : Nat)
      (fields : List (Nat × Ty)) (generics : Option (List Nat))
      (params : Option (List (Nat × Ty))) (scope : Nat)
  | enumeration (location : Option Location) (identifier : Nat) (unique_id : Nat)
      (bitlength : Nat) (values : List Int) (scope : Nat)
  | function (identifier : Nat) (unique_id : Nat)
  | contract (location : Option Location) (identifier : Nat) (type_id : Nat)
      (scope : Nat)

mutual

/-- Shallow embedding of `impl PartialEq for Type` together with the
`PartialEq` impls of `Structure` (by `type_id`), `Enumeration`
(by `unique_id`) and `Contract` (by `type_id`, modelled from the spec). -/
def tyEq : Ty → Ty → Bool
  | .unit _, .unit _ => true
  | .boolean _, .boolean _ => true
  | .integerUnsigned _ b1, .integerUnsigned _ b2 => b1 == b2
  | .integerSigned _ b1, .integerSigned _ b2 => b1 == b2
  | .field _, .field _ => true
  | .string _, .string _ => true
  | .range _ t1, .range _ t2 => tyEq t1 t2
  | .rangeInclusive _ t1, .rangeInclusive _ t2 => tyEq t1 t2
  | .array _ t1 s1, .array _ t2 s2 => tyEq t1 t2 && s1 == s2
  | .tuple _ ts1, .tuple _ ts2 => tyListEq ts1 ts2
  | .structureTy _ _ tid1 _ _ _ _, .structureTy _ _ tid2 _ _ _ _ => tid1 == tid2
  | .enumeration _ _ uid1 _ _ _, .enumeration _ _ uid2 _ _ _ => uid1 == uid2
  | .contract _ _ tid1 _, .contract _ _ tid2 _ => tid1 == tid2
  | _, _ => false

/-- Elementwise equality of type vectors (Rust `Vec<Type>` equality). -/
def tyListEq : List Ty → List Ty → Bool
  | [], [] => true
  | t1 :: r1, t2 :: r2 => tyEq t1 t2 && tyListEq r1 r2
  | _, _ => false

end

/-- C7: two structures, two enumerations, or two contracts compare equal
exactly when their type ids match, independently of their locations,
identifiers, fields, variant values, generics or scopes; the primitive and
aggregate types compare structurally (ignoring locations): units, booleans
and fields are always equal, integers compare by bitlength, arrays by
element type and size, tuples elementwise. -/
theorem ty_eq_by_type_id (l1 l2 : Option Location) (i1 i2 tid1 tid2 : Nat)
    (f1 f2 : List (Nat × Ty)) (g1 g2 : Option (List Nat))
    (p1 p2 : Option (List (Nat × Ty))) (s1 s2 : Nat)
    (bl1 bl2 : Nat) (v1 v2 : List Int) (t1 t2 : Ty) (n1 n2 : Nat)
    (ts1 ts2 : List Ty) :
    tyEq (.structureTy l1 i1 tid1 f1 g1 p1 s1) (.structureTy l2 i2 tid2 f2 g2 p2 s2) =
      (tid1 == tid2) ∧
    tyEq (.enumeration l1 i1 tid1 bl1 v1 s1) (.enumeration l2 i2 tid2 bl2 v2 s2) =
      (tid1 == tid2) ∧
    tyEq (.contract l1 i1 tid1 s1) (.contract l2 i2 tid2 s2) = (tid1 == tid2) ∧
    tyEq (.unit l1) (.unit l2) = true ∧
    tyEq (.boolean l1) (.boolean l2) = true ∧
    tyEq (.field l1) (.field l2) = true ∧
    tyEq (.integerUnsigned l1 bl1) (.integerUnsigned l2 bl2) = (bl1 == bl2) ∧
    tyEq (.integerSigned l1 bl1) (.integerSigned l2 bl2) = (bl1 == bl2) ∧
    tyEq (.array l1 t1 n1) (.array l2 t2 n2) = (tyEq t1 t2 && n1 == n2) ∧
    tyEq (.tuple l1 ts1) (.tuple l2 ts2) = tyListEq ts1 ts2 ∧
    tyEq (.structureTy l1 i1 tid1 f1 g1 p1 s1) (.enumeration l2 i2 tid2 bl2 v2 s2) =
      false :=
  ⟨rfl, rfl, rfl, rfl, rfl, rfl, rfl, rfl, rfl, rfl, rfl⟩

/-!
Section: the semantic scope and path resolution, from
zinc-compiler/src/semantic/scope/mod.rs.

Identifier names are opaque to resolution and are modelled as naturals.
The `Rc<RefCell<HashMap>>` item table becomes an association list looked up
by first match (`HashMap` lookup); the vertical parent chain is embedded
structurally.  `Item` mirrors the scope item enum as used by scope/mod.rs:
each item carries its optional location, constants and types carry the
`is_associated` flag recorded by their declaration entry points, and module
and type items carry the scope they expose as a namespace.  Lazy item
definition (`item.define()`) is modelled as already completed: `define`
returns the stored item unchanged, which is its behavior on defined items
and does not affect resolution order or the errors claimed here.  The
mutating entry points return the (possibly updated) scope next to the
optional error, so the untouched-map property of the error path is
explicit.
-/

structure Ident where
  location : Location
  name : Nat
  deriving DecidableEq, Repr

inductive ScopeError where
  | itemUndeclared (location : Location) (name : Nat)
  | itemRedeclared (location : Location) (name : Nat) (reference : Option Location)
  | associatedItemWithoutOwner (location : Location) (pathNames : List Nat)
  | itemIsNotANamespace (location : Location) (name : Nat)
  | pathUndeclared (location : Location) (pathNames : List Nat)
  deriving DecidableEq, Repr

mutual

inductive Scope where
  | mk (name : Nat) (parent : Option Scope) (items : List (Nat × Item))

inductive Item where
  | var (location : Option Location)
  | field (location : Option Location)
  | constant (location : Option Location) (is_associated : Bool)
  | variant (location : Option Location)
  | typeItem (location : Option Location) (is_associated : Bool) (ty : ItemType)
  | module (location : Option Location) (scope : Scope)

inductive ItemType where
  | structureTy (scope : Scope)
  | enumeration (scope : Scope)
  | contract (scope : Scope)
  | other

end

def Scope.itemsOf : Scope → List (Nat × Item)
  | .mk _ _ items => items

def Scope.parentOf : Scope → Option Scope
  | .mk _ p _ => p

def Item.location : Item → Option Location
  | .var l => l
  | .field l => l
  | .constant l _ => l
  | .variant l => l
  | .typeItem l _ _ => l
  | .module l _ => l

def Item.is_associated : Item → Bool
  | .constant _ a => a
  | .typeItem _ a _ => a
  | _ => false

def Item.namespace_scope : Item → Option Scope
  | .module _ s => some s
  | .typeItem _ _ (.structureTy s) => some s
  | .typeItem _ _ (.enumeration s) => some s
  | .typeItem _ _ (.contract s) => some s
  | _ => none

def Scope.resolve_item : Scope → Ident → Bool → Except ScopeError Item
  | .mk _ parent items, identifier, recursive =>
    match List.lookup identifier.name items with
    | some item => .ok item
    | none =>
      match parent, recursive with
      | some p, true => p.resolve_item identifier true
      | _, _ => .error (.itemUndeclared identifier.location identifier.name)

structure Path where
  location : Location
  elements : List Ident
  deriving DecidableEq, Repr

def resolve_path_loop (totalLen : Nat) (pathLoc : Location) (pathNames : List Nat) :
    Nat → Scope → List Ident → Except ScopeError Item
  | _, _, [] => .error (.pathUndeclared pathLoc pathNames)
  | idx, scope, identifier :: rest =>
    match scope.resolve_item identifier (idx == 0) with
    | .error e => .error e
    | .ok item =>
      if totalLen == 1 && item.is_associated then
        .error (.associatedItemWithoutOwner pathLoc pathNames)
      else if rest.isEmpty then .ok item
      else
        match item.namespace_scope with
        | some s => resolve_path_loop totalLen pathLoc pathNames (idx + 1) s rest
        | none => .error (.itemIsNotANamespace identifier.location identifier.name)

def Scope.resolve_path (scope : Scope) (path : Path) : Except ScopeError Item :=
  resolve_path_loop path.elements.length path.location
    (path.elements.map (fun i => i.name)) 0 scope path.elements

def resolve_tail (pathLoc : Location) (pathNames : List Nat) :
    Scope → List Ident → Except ScopeError Item
  | _, [] => .error (.pathUndeclared pathLoc pathNames)
  | scope, identifier :: rest =>
    match scope.resolve_item identifier false with
    | .error e => .error e
    | .ok item =>
      if rest.isEmpty then .ok item
      else
        match item.namespace_scope with
        | some s => resolve_tail pathLoc pathNames s rest
        | none => .error (.itemIsNotANamespace identifier.location identifier.name)

theorem resolve_path_loop_eq_tail (els : List Ident) :
    ∀ (totalLen idx : Nat), 2 ≤ totalLen → 1 ≤ idx →
    ∀ (s : Scope) (pathLoc : Location) (pathNames : List Nat),
    resolve_path_loop totalLen pathLoc pathNames idx s els =
      resolve_tail pathLoc pathNames s els := by
  induction els with
  | nil => intro totalLen idx _ _ s loc names; rfl
  | cons identifier rest ih =>
    intro totalLen idx h2 h1 s loc names
    have hidx : (idx == 0) = false := by
      simp [Nat.beq_eq_true_eq]; omega
    have htot : (totalLen == 1) = false := by
      simp [Nat.beq_eq_true_eq]; omega
    simp only [resolve_path_loop, resolve_tail, hidx, htot, Bool.false_and,
      Bool.false_eq_true, if_false]
    cases s.resolve_item identifier false with
    | error e => rfl
    | ok item =>
      by_cases hrest : rest.isEmpty
      · simp [hrest]
      · simp only [hrest, if_false, Bool.false_eq_true]
        cases item.namespace_scope with
        | none => rfl
        | some s2 => exact ih totalLen (idx + 1) h2 (by omega) s2 loc names

def Scope.insert_item : Scope → Nat → Item → Scope
  | .mk nm p items, name, item => .mk nm p ((name, item) :: items)

def Scope.define_item (scope : Scope) (identifier : Ident) (item : Item) :
    Option ScopeError × Scope :=
  match scope.resolve_item identifier true with
  | .ok prev =>
    (some (.itemRedeclared identifier.location identifier.name prev.location), scope)
  | .error _ => (none, scope.insert_item identifier.name item)

structure ConstStatement where
  location : Location
  identifier : Ident
  deriving DecidableEq, Repr

def Scope.declare_constant (scope : Scope) (statement : ConstStatement)
    (is_associated : Bool) : Option ScopeError × Scope :=
  match scope.resolve_item statement.identifier true with
  | .ok prev =>
    (some (.itemRedeclared statement.location statement.identifier.name prev.location),
      scope)
  | .error _ =>
    (none, scope.insert_item statement.identifier.name
      (.constant (some statement.identifier.location) is_associated))

structure TypeStatement where
  location : Location
  identifier : Ident
  deriving DecidableEq, Repr

def Scope.declare_type (scope : Scope) (statement : TypeStatement)
    (is_associated : Bool) (ty : ItemType) : Option ScopeError × Scope :=
  match scope.resolve_item statement.identifier true with
  | .ok prev =>
    (some (.itemRedeclared statement.location statement.identifier.name prev.location),
      scope)
  | .error _ =>
    (none, scope.insert_item statement.identifier.name
      (.typeItem (some statement.location) is_associated ty))

theorem resolve_path_loop_cons (totalLen idx : Nat) (pathLoc : Location)
    (pathNames : List Nat) (scope : Scope) (identifier : Ident)
    (rest : List Ident) :
    resolve_path_loop totalLen pathLoc pathNames idx scope (identifier :: rest) =
      match scope.resolve_item identifier (idx == 0) with
      | .error e => .error e
      | .ok item =>
        if totalLen == 1 && item.is_associated then
          .error (.associatedItemWithoutOwner pathLoc pathNames)
        else if rest.isEmpty then .ok item
        else
          match item.namespace_scope with
          | some s => resolve_path_loop totalLen pathLoc pathNames (idx + 1) s rest
          | none => .error (.itemIsNotANamespace identifier.location identifier.name) := rfl

/-- C8: `resolve_path` resolves the first identifier recursively up the
parent-scope chain (first conjunct: single-element paths; second: the head
of longer paths; third: a scope lacking the name delegates upward under the
recursive flag) and every subsequent identifier non-recursively inside the
namespace scope of the previous element (second and fourth conjuncts); a
one-element path naming an associated item yields
`AssociatedItemWithoutOwner`, and a non-final element that is not a module,
structure, enumeration or contract yields `ItemIsNotANamespace`. -/
theorem resolve_path_spec (scope : Scope) (pathLoc : Location) (x : Ident)
    (rest : List Ident) :
    (Scope.resolve_path scope ⟨pathLoc, [x]⟩ =
      match scope.resolve_item x true with
      | .ok item =>
        if item.is_associated then
          .error (.associatedItemWithoutOwner pathLoc [x.name])
        else .ok item
      | .error e => .error e) ∧
    (rest ≠ [] →
      Scope.resolve_path scope ⟨pathLoc, x :: rest⟩ =
        match scope.resolve_item x true with
        | .ok item =>
          match item.namespace_scope with
          | some s =>
            resolve_tail pathLoc (x.name :: rest.map (fun i => i.name)) s rest
          | none => .error (.itemIsNotANamespace x.location x.name)
        | .error e => .error e) ∧
    (∀ (nm : Nat) (p : Scope) (items : List (Nat × Item)),
      List.lookup x.name items = none →
      (Scope.mk nm (some p) items).resolve_item x true = p.resolve_item x true) ∧
    (∀ (nm : Nat) (pa : Option Scope) (items : List (Nat × Item)),
      List.lookup x.name items = none →
      (Scope.mk nm pa items).resolve_item x false =
        .error (.itemUndeclared x.location x.name)) := by
  have h00 : (0 == 0) = true := rfl
  refine ⟨?_, ?_, ?_, ?_⟩
  · have e1 : Scope.resolve_path scope ⟨pathLoc, [x]⟩ =
        resolve_path_loop 1 pathLoc [x.name] 0 scope [x] := rfl
    rw [e1, resolve_path_loop_cons, h00]
    cases h : scope.resolve_item x true with
    | error e => rfl
    | ok item =>
      cases ha : item.is_associated <;> simp [ha]
  · intro hne
    cases rest with
    | nil => exact absurd rfl hne
    | cons y ys =>
      have e2 : Scope.resolve_path scope ⟨pathLoc, x :: y :: ys⟩ =
          resolve_path_loop (ys.length + 2) pathLoc
            (x.name :: y.name :: ys.map (fun i => i.name)) 0 scope (x :: y :: ys) := rfl
      rw [e2, resolve_path_loop_cons, h00]
      cases h : scope.resolve_item x true with
      | error e => rfl
      | ok item =>
        have htot : (ys.length + 2 == 1) = false := by
          simp [Nat.beq_eq_true_eq]
        simp only [htot, Bool.false_and, Bool.false_eq_true, if_false,
          List.isEmpty_cons, List.map_cons]
        cases item.namespace_scope with
        | none => rfl
        | some s =>
          exact resolve_path_loop_eq_tail (y :: ys) (ys.length + 2) 1
            (by omega) (by omega) s pathLoc
            (x.name :: y.name :: ys.map (fun i => i.name))
  · intro nm p items hnone
    simp [Scope.resolve_item, hnone]
  · intro nm pa items hnone
    cases pa <;> simp [Scope.resolve_item, hnone]

/-- C9: declaring or defining an item whose identifier already resolves in
the scope (via `define_item`, `declare_type`, or `declare_constant`) returns
an `ItemRedeclared` error that references the earlier declaration site, and
the scope item map is left unchanged on the error path: the returned scope
is the input scope, with no item inserted or replaced. -/
theorem declare_redeclared_spec (scope : Scope) (identifier : Ident) (item : Item)
    (cstmt : ConstStatement) (tstmt : TypeStatement) (assoc : Bool)
    (ty : ItemType) (prev : Item)
    (hres : scope.resolve_item identifier true = .ok prev)
    (hc : cstmt.identifier = identifier) (ht : tstmt.identifier = identifier) :
    scope.define_item identifier item =
      (some (.itemRedeclared identifier.location identifier.name prev.location),
        scope) ∧
    scope.declare_constant cstmt assoc =
      (some (.itemRedeclared cstmt.location identifier.name prev.location), scope) ∧
    scope.declare_type tstmt assoc ty =
      (some (.itemRedeclared tstmt.location identifier.name prev.location), scope) := by
  refine ⟨?_, ?_, ?_⟩
  · simp [Scope.define_item, hres]
  · simp [Scope.declare_constant, hc, hres]
  · simp [Scope.declare_type, ht, hres]

/-- A concrete inner module scope holding a variable named 7. -/
def scope_inner : Scope := .mk 10 none [(7, .var (some ⟨3, 3⟩))]

/-- A concrete root scope holding the inner scope as a module named 3. -/
def scope_root : Scope := .mk 0 none [(3, .module (some ⟨1, 1⟩) scope_inner)]

/-- C8 witness: resolving the two-element path `3::7` in the concrete root
scope steps into the module scope and finds the variable. -/
theorem resolve_path_spec_witness :
    ([(⟨⟨2, 2⟩, 7⟩ : Ident)] ≠ []) ∧
    Scope.resolve_path scope_root ⟨⟨0, 0⟩, [⟨⟨1, 1⟩, 3⟩, ⟨⟨2, 2⟩, 7⟩]⟩ =
      .ok (.var (some ⟨3, 3⟩)) := by
  refine ⟨by simp, ?_⟩
  rw [(resolve_path_spec scope_root ⟨0, 0⟩ ⟨⟨1, 1⟩, 3⟩ [⟨⟨2, 2⟩, 7⟩]).2.1 (by simp)]
  rfl

/-- A concrete scope holding a variable named 5, declared at location
`(1, 1)`. -/
def scope_decl : Scope := .mk 0 none [(5, .var (some ⟨1, 1⟩))]

/-- The identifier 5 re-declared at location `(2, 2)`. -/
def ident_decl : Ident := ⟨⟨2, 2⟩, 5⟩

/-- C9 witness: re-declaring the already-resolvable identifier 5 in the
concrete scope errors with a reference to the original location and leaves
the scope unchanged. -/
theorem declare_redeclared_spec_witness :
    scope_decl.resolve_item ident_decl true = .ok (.var (some ⟨1, 1⟩)) ∧
    scope_decl.define_item ident_decl (.var none) =
      (some (.itemRedeclared ⟨2, 2⟩ 5 (some ⟨1, 1⟩)), scope_decl) :=
  ⟨rfl,
    (declare_redeclared_spec scope_decl ident_decl (.var none)
      ⟨⟨4, 4⟩, ident_decl⟩ ⟨⟨4, 4⟩, ident_decl⟩ false .other (.var (some ⟨1, 1⟩))
      rfl rfl rfl).1⟩

/-!
Section: the contract storage gadget, from
zinc-vm/src/gadgets/contract/storage.rs.

The backing leaf store (`IMerkleTree`, implemented by the database storage
in core/contract/storage) is outside the snapshot and is modelled from the
spec (section 4.9): an ordered vector of leaves with `load(index)` and
`store(index, leaf)`.  Leaf scalars are modelled by their witness values.

The gadget methods additionally log which constraint groups they emit into
the constraint system.  Following the source: `load` emits the index bit
decomposition (`get_bits_le`) and the leaf field allocations
(`alloc_leaf_fields`) and then returns; the entire authentication-path
enforcement block (allocating the path, enforcing the Merkle path, and
comparing the recomputed root with the stored root hash variable, lines
77 to 109) is commented out in the source and therefore absent here.
`store` emits only the index bit decomposition; its enforcement block and
the root-hash update (lines 135 to 173) are likewise commented out, so the
gadget's `root_hash` field is returned unchanged.
-/

/-- A storage leaf: a fixed array of scalars or a keyed map. -/
inductive LeafVariant where
  | array (values : List Int)
  | map (entries : List (Int × Int))
  deriving DecidableEq, Repr

/-- Modelled from the spec: the backing leaf store is an ordered vector of
leaves (spec section 4.9). -/
structure MerkleStorage where
  leaves : List LeafVariant
  deriving DecidableEq, Repr

/-- Modelled from the spec: `load(index)` reads the leaf at the index. -/
def MerkleStorage.load (s : MerkleStorage) (index : Nat) : Option LeafVariant :=
  s.leaves[index]?

/-- Modelled from the spec: `store(index, leaf)` replaces the leaf at the
index. -/
def MerkleStorage.store (s : MerkleStorage) (index : Nat) (values : LeafVariant) :
    Option MerkleStorage :=
  if index < s.leaves.length then some ⟨s.leaves.set index values⟩ else none

/-- The constraint groups the storage gadget can emit into the constraint
system. -/
inductive EmittedConstraint where
  | bitDecomposition
  | allocation
  | merklePathEnforcement
  | rootHashEquality
  deriving DecidableEq, Repr

/-- Shallow embedding of `StorageGadget`: the backing storage and the
allocated root hash variable (by its witness value). -/
structure StorageGadget where
  storage : MerkleStorage
  root_hash : Int
  deriving DecidableEq, Repr

/-- The leaf values surfaced by `load`: array leaves yield their scalars,
map leaves yield an empty vector (source lines 70 to 73). -/
def leaf_fields : LeafVariant → List Int
  | .array values => values
  | .map _ => []

/-- Shallow embedding of `StorageGadget::load` (the unused `size` argument
of the source is dropped): returns the allocated leaf fields and the list of
constraint groups emitted. -/
def StorageGadget.load (g : StorageGadget) (index : Nat) :
    Option (List Int) × List EmittedConstraint :=
  match g.storage.load index with
  | some leaf => (some (leaf_fields leaf), [.bitDecomposition, .allocation])
  | none => (none, [.bitDecomposition])

/-- Shallow embedding of `StorageGadget::store`: returns the updated gadget
and the list of constraint groups emitted. -/
def StorageGadget.store (g : StorageGadget) (index : Nat) (values : LeafVariant) :
    Option StorageGadget × List EmittedConstraint :=
  match g.storage.store index values with
  | some s2 => (some ⟨s2, g.root_hash⟩, [.bitDecomposition])
  | none => (none, [.bitDecomposition])

/-- C1: contrary to the claim, no execution of `StorageGadget::load` or
`StorageGadget::store` emits Merkle authentication-path or root-hash
equality constraints — the enforcement blocks are commented out in the
source — and `store` leaves the root-hash variable unchanged instead of
updating it, so the constraint system never ties the accessed leaf to
the stored root. -/
theorem storage_no_merkle_constraints (g : StorageGadget) (index : Nat)
    (values : LeafVariant) :
    EmittedConstraint.merklePathEnforcement ∉ (g.load index).2 ∧
    EmittedConstraint.rootHashEquality ∉ (g.load index).2 ∧
    EmittedConstraint.merklePathEnforcement ∉ (g.store index values).2 ∧
    EmittedConstraint.rootHashEquality ∉ (g.store index values).2 ∧
    (g.store index values).1.map (fun g2 => g2.root_hash) =
      (g.store index values).1.map (fun _ => g.root_hash) := by
  refine ⟨?_, ?_, ?_, ?_, ?_⟩
  · unfold StorageGadget.load
    cases g.storage.load index <;> simp
  · unfold StorageGadget.load
    cases g.storage.load index <;> simp
  · unfold StorageGadget.store
    cases g.storage.store index values <;> simp
  · unfold StorageGadget.store
    cases g.storage.store index values <;> simp
  · unfold StorageGadget.store
    cases g.storage.store index values <;> simp

/-- C6: storing an array leaf and loading the same index returns the stored
witness values, and every other index is unchanged by the store. -/
theorem storage_store_load (g : StorageGadget) (index : Nat) (v : List Int)
    (h : index < g.storage.leaves.length) :
    ∃ g2, (g.store index (.array v)).1 = some g2 ∧
      (g2.load index).1 = some v ∧
      ∀ j, j ≠ index → g2.storage.load j = g.storage.load j := by
  refine ⟨⟨⟨g.storage.leaves.set index (.array v)⟩, g.root_hash⟩, ?_, ?_, ?_⟩
  · simp [StorageGadget.store, MerkleStorage.store, h]
  · simp [StorageGadget.load, MerkleStorage.load, List.getElem?_set_self h,
      leaf_fields]
  · intro j hj
    simp [MerkleStorage.load, List.getElem?_set_ne (by omega : index ≠ j)]

/-- C6 witness: storing `[42]` into leaf 0 of a two-leaf storage and loading
it back. -/
theorem storage_store_load_witness :
    (0 : Nat) <
      (StorageGadget.mk ⟨[.array [0], .array [0]]⟩ 0).storage.leaves.length ∧
    ∃ g2,
      ((StorageGadget.mk ⟨[.array [0], .array [0]]⟩ 0).store 0 (.array [42])).1 =
        some g2 ∧
      (g2.load 0).1 = some [42] ∧
      ∀ j, j ≠ 0 →
        g2.storage.load j =
          (StorageGadget.mk ⟨[.array [0], .array [0]]⟩ 0).storage.load j :=
  ⟨by decide,
    storage_store_load (StorageGadget.mk ⟨[.array [0], .array [0]]⟩ 0) 0 [42]
      (by decide)⟩

/-!
Section: branch merging.

Modelled from the spec: no VM implementation of the `If`, `Else`, `EndIf`
and store opcodes is part of the snapshot, so the branch discipline of spec
sections 4.7 (Branching) and 4.8 (`select`) is modelled directly: `if`
pushes the condition and forks the data stack so writes are staged, `else`
switches the staged fork, and `endif` merges every location as
`select(condition, then_value, else_value)`.  Both arms are executed
unconditionally; the condition only enters through the final merge.
-/

/-- Modelled from the spec: the branch-related instructions (the branch
condition is carried by `ifBegin`, standing for the popped condition). -/
inductive BranchInstr where
  | ifBegin (condition : Bool)
  | elseBegin
  | endIf
  | storeLocal (address : Nat) (value : Int)
  deriving DecidableEq, Repr

/-- Modelled from the spec: a branch block with its condition, else flag and
the two staged data-stack forks. -/
structure BranchFrame where
  condition : Bool
  is_else : Bool
  then_data : List Int
  else_data : List Int
  deriving DecidableEq, Repr

/-- Modelled from the spec: the data stack, the active branch frames, and a
count of dispatched instructions. -/
structure BranchState where
  data : List Int
  frames : List BranchFrame
  executed : Nat
  deriving DecidableEq, Repr

/-- The selection gadget at the witness level: `select(c, a, b)`. -/
def select_int (c : Bool) (a b : Int) : Int := if c then a else b

/-- A boolean scalar as a field value. -/
def bool_to_int (c : Bool) : Int := if c then 1 else 0

/-- Pointwise merge of the two staged forks by selection. -/
def merge_data (c : Bool) (t e : List Int) : List Int :=
  List.zipWith (fun a b => select_int c a b) t e

/-- Modelled from the spec: one dispatch step of the branch discipline. -/
def branch_step (st : BranchState) : BranchInstr → BranchState
  | .ifBegin c => ⟨st.data, ⟨c, false, st.data, st.data⟩ :: st.frames, st.executed + 1⟩
  | .elseBegin =>
    match st.frames with
    | fr :: rest =>
      ⟨st.data, ⟨fr.condition, true, fr.then_data, fr.else_data⟩ :: rest,
        st.executed + 1⟩
    | [] => ⟨st.data, [], st.executed + 1⟩
  | .endIf =>
    match st.frames with
    | fr :: rest =>
      ⟨merge_data fr.condition fr.then_data fr.else_data, rest, st.executed + 1⟩
    | [] => ⟨st.data, [], st.executed + 1⟩
  | .storeLocal x v =>
    match st.frames with
    | [] => ⟨st.data.set x v, [], st.executed + 1⟩
    | fr :: rest =>
      if fr.is_else then
        ⟨st.data, ⟨fr.condition, fr.is_else, fr.then_data, fr.else_data.set x v⟩ :: rest,
          st.executed + 1⟩
      else
        ⟨st.data, ⟨fr.condition, fr.is_else, fr.then_data.set x v, fr.else_data⟩ :: rest,
          st.executed + 1⟩

/-- Modelled from the spec: sequential dispatch of a program. -/
def branch_run (st : BranchState) (prog : List BranchInstr) : BranchState :=
  prog.foldl branch_step st

/-- C4: for a branch `if c { x = a } else { x = b }`, both arms execute
regardless of `c` (all five instructions dispatch, and before the merge the
staged forks hold both writes whatever `c` is), and after `endif` the value
at `x` is `select(c, a, b) = c * a + (1 - c) * b`, while every other
location is unchanged. -/
theorem branch_merge_select (c : Bool) (d : List Int) (x : Nat) (a b : Int)
    (hx : x < d.length) :
    (branch_run ⟨d, [], 0⟩
        [.ifBegin c, .storeLocal x a, .elseBegin, .storeLocal x b, .endIf]).frames
        = [] ∧
    (branch_run ⟨d, [], 0⟩
        [.ifBegin c, .storeLocal x a, .elseBegin, .storeLocal x b, .endIf]).data[x]?
        = some (select_int c a b) ∧
    (branch_run ⟨d, [], 0⟩
        [.ifBegin c, .storeLocal x a, .elseBegin, .storeLocal x b, .endIf]).data[x]?
        = some (bool_to_int c * a + (1 - bool_to_int c) * b) ∧
    (∀ j, j ≠ x →
      (branch_run ⟨d, [], 0⟩
        [.ifBegin c, .storeLocal x a, .elseBegin, .storeLocal x b, .endIf]).data[j]?
        = d[j]?) ∧
    (branch_run ⟨d, [], 0⟩
        [.ifBegin c, .storeLocal x a, .elseBegin, .storeLocal x b, .endIf]).executed
        = 5 ∧
    (∃ fr, (branch_run ⟨d, [], 0⟩
        [.ifBegin c, .storeLocal x a, .elseBegin, .storeLocal x b]).frames = [fr] ∧
      fr.then_data[x]? = some a ∧ fr.else_data[x]? = some b) := by
  have hrun : branch_run ⟨d, [], 0⟩
      [.ifBegin c, .storeLocal x a, .elseBegin, .storeLocal x b, .endIf] =
      ⟨merge_data c (d.set x a) (d.set x b), [], 5⟩ := by
    simp [branch_run, branch_step, List.foldl]
  have hmid : branch_run ⟨d, [], 0⟩
      [.ifBegin c, .storeLocal x a, .elseBegin, .storeLocal x b] =
      ⟨d, [⟨c, true, d.set x a, d.set x b⟩], 4⟩ := by
    simp [branch_run, branch_step, List.foldl]
  have hsel : (merge_data c (d.set x a) (d.set x b))[x]? =
      some (select_int c a b) := by
    rw [merge_data, List.getElem?_zipWith]
    rw [List.getElem?_set_self (by simpa using hx),
      List.getElem?_set_self (by simpa using hx)]
  refine ⟨by rw [hrun], by rw [hrun]; exact hsel, ?_, ?_, by rw [hrun], ?_⟩
  · rw [hrun]
    rw [hsel]
    cases c <;> simp [select_int, bool_to_int]
  · intro j hj
    rw [hrun]
    show (merge_data c (d.set x a) (d.set x b))[j]? = d[j]?
    rw [merge_data, List.getElem?_zipWith]
    rw [List.getElem?_set_ne (by omega : x ≠ j),
      List.getElem?_set_ne (by omega : x ≠ j)]
    cases h : d[j]? <;> simp [select_int]
  · refine ⟨⟨c, true, d.set x a, d.set x b⟩, by rw [hmid], ?_, ?_⟩
    · exact List.getElem?_set_self (by simpa using hx)
    · exact List.getElem?_set_self (by simpa using hx)

/-- C4 witness: the branch program over the one-slot data stack `[1]` with a
true condition merges to the then-value. -/
theorem branch_merge_select_witness :
    (0 : Nat) < ([1] : List Int).length ∧
    (branch_run ⟨[1], [], 0⟩
        [.ifBegin true, .storeLocal 0 10, .elseBegin, .storeLocal 0 20,
          .endIf]).data[0]?
      = some (select_int true 10 20) :=
  ⟨by decide, (branch_merge_select true [1] 0 10 20 (by decide)).2.1⟩

end Zinc
